import Mathlib

/-!
The State-pattern demo `state/state.cxx`.

A shallow embedding of the program: two `HeroineState` subclasses (`Walking`, `Jumping`), the
`Heroine` that owns a pointer to its current state, and the loop of `main`.

Modelling decisions.

* The free store is a list of slots: the address of an object is its index, `new` appends a
  slot, and a slot holding `none` stands for an object that has been released. The program text
  contains no `delete`, so none of the embedded operations ever empties a slot; allocation is
  assumed to succeed.
* `std::cout` is the string of all characters written so far.
* `clock_gettime(CLOCK_REALTIME, &time)` is an input: every `update_state` receives the value
  stored into `time.tv_sec` as the argument `tv_sec`, and a run of `main` receives the list of
  the successive readings, one per loop iteration. `tv_sec` is a signed machine integer, taken
  here as an `Int`; the only arithmetic on it is `%` by 3 or 7, which cannot overflow and which
  truncates toward zero in C++ (`Int.tmod`).
* A virtual call through a pointer that does not designate a live object has no defined
  behaviour: the dispatch returns `none` there.
-/

set_option linter.unusedVariables false

namespace BlogMarkdown

/-- Dynamic type of a `HeroineState` object: the two subclasses of the abstract class. -/
inductive HeroineState where
  | Walking
  | Jumping
deriving DecidableEq, Repr

/-- Line of text, without its newline, that the `update_state` of each subclass writes. -/
def HeroineState.line : HeroineState → String
  | HeroineState.Walking => "walking"
  | HeroineState.Jumping => "Jumping"

/-- Process state: the free store and the standard output stream. -/
structure World where
  /-- Slots handed out by `new`, by address; `none` marks a released object. -/
  heap : List (Option HeroineState)
  /-- Everything written to `std::cout` so far. -/
  cout : String
deriving DecidableEq, Repr

/-- State of the process when `main` is entered. -/
def World.start : World :=
  { heap := [], cout := "" }

/-- Expression `new T()`: a fresh object of dynamic type `k`, and its address. -/
def World.new (w : World) (k : HeroineState) : World × Nat :=
  ({ w with heap := w.heap ++ [some k] }, w.heap.length)

/-- Object a pointer designates, if it designates a live one. -/
def World.deref (w : World) (p : Nat) : Option HeroineState :=
  (w.heap[p]?).join

/-- Addresses of the live objects, in allocation order. -/
def World.live (w : World) : List Nat :=
  (List.range w.heap.length).filter (fun p => (w.deref p).isSome)

/-- Expression `std::cout << s`. -/
def World.write (w : World) (s : String) : World :=
  { w with cout := w.cout ++ s }

/-- Class `Heroine`: its only member is the pointer `state`. -/
structure Heroine where
  state : Nat
deriving DecidableEq, Repr

/-- Method `Walking::update_state`, called on the object at address `self`. -/
def Walking.update_state (self : Nat) (heroine : Heroine) (tv_sec : Int) (w : World) :
    World × Nat :=
  let w1 := w.write "walking\n"
  if Int.tmod tv_sec 3 = 0 then
    w1.new HeroineState.Jumping
  else
    (w1, self)

/-- Method `Jumping::update_state`, called on the object at address `self`. -/
def Jumping.update_state (self : Nat) (heroine : Heroine) (tv_sec : Int) (w : World) :
    World × Nat :=
  let w1 := w.write "Jumping\n"
  if Int.tmod tv_sec 7 = 0 then
    w1.new HeroineState.Walking
  else
    (w1, self)

/-- Virtual call `p->update_state(heroine)`: dispatch on the dynamic type of the object at `p`. -/
def HeroineState.update_state (p : Nat) (heroine : Heroine) (tv_sec : Int) (w : World) :
    Option (World × Nat) :=
  match w.deref p with
  | some HeroineState.Walking => some (Walking.update_state p heroine tv_sec w)
  | some HeroineState.Jumping => some (Jumping.update_state p heroine tv_sec w)
  | none => none

/-- Constructor `Heroine::Heroine`. -/
def Heroine.construct (w : World) : World × Heroine :=
  let r := w.new HeroineState.Walking
  (r.1, { state := r.2 })

/-- Method `Heroine::update`. -/
def Heroine.update (self : Heroine) (tv_sec : Int) (w : World) : Option (World × Heroine) :=
  match HeroineState.update_state self.state self tv_sec w with
  | some r => some (r.1, { self with state := r.2 })
  | none => none

/-- Loop of `main`, unrolled once per clock reading supplied. -/
def mainLoop : List Int → World → Heroine → Option (World × Heroine)
  | [], w, heroine => some (w, heroine)
  | tv_sec :: rest, w, heroine =>
    match heroine.update tv_sec w with
    | some r => mainLoop rest r.1 r.2
    | none => none

/-- Function `main`, run for as many iterations as there are clock readings. -/
def main (clock : List Int) : Option (World × Heroine) :=
  let r := Heroine.construct World.start
  mainLoop clock r.1 r.2

/-- Dynamic type of the state the actor holds at the end of a run, if the run is defined. -/
def current (r : Option (World × Heroine)) : Option HeroineState :=
  r.bind (fun x => x.1.deref x.2.state)

/-- Text made of the given lines, each terminated by a newline. -/
def unlines : List String → String
  | [] => ""
  | l :: ls => l ++ "\n" ++ unlines ls

/-- Clock readings of `n` ticks one second apart, the first at `t0`. -/
def consecutive (t0 : Int) : Nat → List Int
  | 0 => []
  | n + 1 => t0 :: consecutive (t0 + 1) n

/-- Number of ticks of the loop, run from the given process state over the given clock
readings, after which the actor's state has another dynamic type than before the tick. -/
def changes : List Int → World → Heroine → Nat
  | [], _, _ => 0
  | tv_sec :: rest, w, heroine =>
    match heroine.update tv_sec w with
    | some r =>
      (if r.1.deref r.2.state = w.deref heroine.state then 0 else 1) + changes rest r.1 r.2
    | none => 0

/-- Dynamic type of the object that `update_state` returns, from the dynamic type of the
object it is called on and the clock reading: the guards of `Walking::update_state` and of
`Jumping::update_state`, without the free store and the output. -/
def HeroineState.next : HeroineState → Int → HeroineState
  | HeroineState.Walking, tv_sec =>
    if Int.tmod tv_sec 3 = 0 then HeroineState.Jumping else HeroineState.Walking
  | HeroineState.Jumping, tv_sec =>
    if Int.tmod tv_sec 7 = 0 then HeroineState.Walking else HeroineState.Jumping

/-! ## Auxiliary facts -/

theorem update_of_walking (t : Int) (w : World) (heroine : Heroine)
    (hw : w.deref heroine.state = some HeroineState.Walking) :
    heroine.update t w = some
      (if Int.tmod t 3 = 0 then
        ({ heap := w.heap ++ [some HeroineState.Jumping], cout := w.cout ++ "walking\n" },
          { state := w.heap.length })
      else ({ heap := w.heap, cout := w.cout ++ "walking\n" }, heroine)) := by
  unfold Heroine.update HeroineState.update_state
  rw [hw]
  by_cases h : Int.tmod t 3 = 0 <;>
    simp [Walking.update_state, World.write, World.new, h]

theorem update_of_jumping (t : Int) (w : World) (heroine : Heroine)
    (hj : w.deref heroine.state = some HeroineState.Jumping) :
    heroine.update t w = some
      (if Int.tmod t 7 = 0 then
        ({ heap := w.heap ++ [some HeroineState.Walking], cout := w.cout ++ "Jumping\n" },
          { state := w.heap.length })
      else ({ heap := w.heap, cout := w.cout ++ "Jumping\n" }, heroine)) := by
  unfold Heroine.update HeroineState.update_state
  rw [hj]
  by_cases h : Int.tmod t 7 = 0 <;>
    simp [Jumping.update_state, World.write, World.new, h]

theorem deref_append_self (hp : List (Option HeroineState)) (c : String) (k : HeroineState) :
    World.deref { heap := hp ++ [some k], cout := c } hp.length = some k := by
  simp [World.deref]

theorem tick_defined (t : Int) (w : World) (heroine : Heroine) (k : HeroineState)
    (hk : w.deref heroine.state = some k) :
    ∃ w1 h1 k1, heroine.update t w = some (w1, h1) ∧ w1.deref h1.state = some k1
      ∧ w1.cout = w.cout ++ (k.line ++ "\n") := by
  cases k with
  | Walking =>
    rw [update_of_walking t w heroine hk]
    by_cases h : Int.tmod t 3 = 0
    · rw [if_pos h]
      exact ⟨_, _, HeroineState.Jumping, rfl, deref_append_self _ _ _, rfl⟩
    · rw [if_neg h]
      exact ⟨_, _, HeroineState.Walking, rfl, hk, rfl⟩
  | Jumping =>
    rw [update_of_jumping t w heroine hk]
    by_cases h : Int.tmod t 7 = 0
    · rw [if_pos h]
      exact ⟨_, _, HeroineState.Walking, rfl, deref_append_self _ _ _, rfl⟩
    · rw [if_neg h]
      exact ⟨_, _, HeroineState.Jumping, rfl, hk, rfl⟩

theorem mainLoop_cons_of_update (t : Int) (rest : List Int) (w w1 : World)
    (heroine h1 : Heroine) (hu : heroine.update t w = some (w1, h1)) :
    mainLoop (t :: rest) w heroine = mainLoop rest w1 h1 := by
  simp only [mainLoop, hu]

theorem mainLoop_append (a b : List Int) :
    ∀ (w : World) (heroine : Heroine),
      mainLoop (a ++ b) w heroine = (mainLoop a w heroine).bind (fun r => mainLoop b r.1 r.2) := by
  induction a with
  | nil => intro w heroine; rfl
  | cons t rest ih =>
    intro w heroine
    cases hu : heroine.update t w with
    | none => simp [mainLoop, hu]
    | some r =>
      obtain ⟨w1, h1⟩ := r
      rw [List.cons_append, mainLoop_cons_of_update t _ w w1 heroine h1 hu,
        mainLoop_cons_of_update t _ w w1 heroine h1 hu]
      exact ih w1 h1

theorem line_cases (k : HeroineState) : k.line = "walking" ∨ k.line = "Jumping" := by
  cases k
  · exact Or.inl rfl
  · exact Or.inr rfl

theorem run_spec (clock : List Int) :
    ∀ (w : World) (heroine : Heroine) (k : HeroineState), w.deref heroine.state = some k →
      ∃ w1 h1 k1 lines, mainLoop clock w heroine = some (w1, h1)
        ∧ w1.deref h1.state = some k1
        ∧ w1.cout = w.cout ++ unlines lines
        ∧ lines.length = clock.length
        ∧ (∀ l ∈ lines, l = "walking" ∨ l = "Jumping")
        ∧ ∀ n, lines[n]? =
            if n < clock.length then
              (current (mainLoop (clock.take n) w heroine)).map HeroineState.line
            else none := by
  induction clock with
  | nil =>
    intro w heroine k hk
    refine ⟨w, heroine, k, [], rfl, hk, ?_, rfl, ?_, ?_⟩
    · simp [unlines]
    · intro l hl; cases hl
    · intro n; simp
  | cons t rest ih =>
    intro w heroine k hk
    obtain ⟨w1, h1, k1, hu, hk1, hc1⟩ := tick_defined t w heroine k hk
    obtain ⟨w2, h2, k2, lines, hr, hk2, hc2, hlen, hall, hidx⟩ := ih w1 h1 k1 hk1
    refine ⟨w2, h2, k2, k.line :: lines, ?_, hk2, ?_, ?_, ?_, ?_⟩
    · rw [mainLoop_cons_of_update t rest w w1 heroine h1 hu]; exact hr
    · rw [hc2, hc1, unlines, String.append_assoc, String.append_assoc]
    · simp [hlen]
    · intro l hl
      rcases List.mem_cons.1 hl with h | h
      · rw [h]; exact line_cases k
      · exact hall l h
    · intro n
      cases n with
      | zero => simp [mainLoop, current, hk]
      | succ m =>
        rw [List.getElem?_cons_succ, hidx m, List.take_succ_cons,
          mainLoop_cons_of_update t _ w w1 heroine h1 hu]
        simp

theorem deref_construct (w : World) :
    (Heroine.construct w).1.deref (Heroine.construct w).2.state = some HeroineState.Walking := by
  simp [Heroine.construct, World.new, World.deref]

theorem deref_heap_eq (w1 w2 : World) (p : Nat) (h : w1.heap = w2.heap) :
    w1.deref p = w2.deref p := by
  unfold World.deref
  rw [h]

theorem tick_stays (k : HeroineState) (t : Int) (w : World) (heroine : Heroine)
    (hk : w.deref heroine.state = some k)
    (h3 : k = HeroineState.Walking → ¬ (3 : Int) ∣ t)
    (h7 : k = HeroineState.Jumping → ¬ (7 : Int) ∣ t) :
    heroine.update t w = some ({ heap := w.heap, cout := w.cout ++ (k.line ++ "\n") }, heroine) := by
  cases k with
  | Walking =>
    have h := h3 rfl
    rw [Int.dvd_iff_tmod_eq_zero] at h
    rw [update_of_walking t w heroine hk, if_neg h]
    rfl
  | Jumping =>
    have h := h7 rfl
    rw [Int.dvd_iff_tmod_eq_zero] at h
    rw [update_of_jumping t w heroine hk, if_neg h]
    rfl

theorem stay_run (k : HeroineState) (clock : List Int) :
    ∀ (w : World) (heroine : Heroine), w.deref heroine.state = some k →
      (k = HeroineState.Walking → ∀ t ∈ clock, ¬ (3 : Int) ∣ t) →
      (k = HeroineState.Jumping → ∀ t ∈ clock, ¬ (7 : Int) ∣ t) →
      ∃ w1, mainLoop clock w heroine = some (w1, heroine) ∧ w1.heap = w.heap := by
  induction clock with
  | nil => intro w heroine _ _ _; exact ⟨w, rfl, rfl⟩
  | cons t rest ih =>
    intro w heroine hk h3 h7
    have hu := tick_stays k t w heroine hk
      (fun e => h3 e t (List.mem_cons_self t rest))
      (fun e => h7 e t (List.mem_cons_self t rest))
    obtain ⟨w1, hr, hh⟩ := ih { heap := w.heap, cout := w.cout ++ (k.line ++ "\n") } heroine hk
      (fun e t1 ht1 => h3 e t1 (List.mem_cons_of_mem t ht1))
      (fun e t1 ht1 => h7 e t1 (List.mem_cons_of_mem t ht1))
    exact ⟨w1, by rw [mainLoop_cons_of_update t rest w _ heroine heroine hu]; exact hr, hh⟩

theorem changes_cons_of_update (t : Int) (rest : List Int) (w w1 : World)
    (heroine h1 : Heroine) (hu : heroine.update t w = some (w1, h1)) :
    changes (t :: rest) w heroine
      = (if w1.deref h1.state = w.deref heroine.state then 0 else 1) + changes rest w1 h1 := by
  simp only [changes, hu]

theorem deref_last (w : World) (heroine : Heroine)
    (hall : ∀ s ∈ w.heap, s.isSome = true) (hlast : heroine.state + 1 = w.heap.length) :
    ∃ k, w.deref heroine.state = some k := by
  have hlt : heroine.state < w.heap.length := by omega
  have hmem : w.heap[heroine.state] ∈ w.heap := List.getElem_mem hlt
  have hs := hall _ hmem
  obtain ⟨k, hk⟩ := Option.isSome_iff_exists.1 hs
  refine ⟨k, ?_⟩
  unfold World.deref
  rw [List.getElem?_eq_getElem hlt, hk]
  rfl

theorem tick_heap (t : Int) (w : World) (heroine : Heroine)
    (hall : ∀ s ∈ w.heap, s.isSome = true) (hlast : heroine.state + 1 = w.heap.length) :
    ∃ w1 h1, heroine.update t w = some (w1, h1)
      ∧ (∀ s ∈ w1.heap, s.isSome = true)
      ∧ h1.state + 1 = w1.heap.length
      ∧ w1.heap.length = w.heap.length
          + (if w1.deref h1.state = w.deref heroine.state then 0 else 1) := by
  have hgrow : ∀ k : HeroineState, ∀ s ∈ w.heap ++ [some k], s.isSome = true := by
    intro k s hs
    rcases List.mem_append.1 hs with h | h
    · exact hall s h
    · rw [List.mem_singleton.1 h]; rfl
  obtain ⟨k, hk⟩ := deref_last w heroine hall hlast
  cases k with
  | Walking =>
    rw [update_of_walking t w heroine hk]
    by_cases h : Int.tmod t 3 = 0
    · rw [if_pos h]
      refine ⟨_, _, rfl, hgrow _, by simp, ?_⟩
      have hd : World.deref
          { heap := w.heap ++ [some HeroineState.Jumping], cout := w.cout ++ "walking\n" }
          w.heap.length = some HeroineState.Jumping :=
        deref_append_self _ _ _
      simp [hd, hk]
    · rw [if_neg h]
      refine ⟨_, _, rfl, hall, hlast, ?_⟩
      have hd : World.deref { heap := w.heap, cout := w.cout ++ "walking\n" } heroine.state
          = w.deref heroine.state := rfl
      simp [hd]
  | Jumping =>
    rw [update_of_jumping t w heroine hk]
    by_cases h : Int.tmod t 7 = 0
    · rw [if_pos h]
      refine ⟨_, _, rfl, hgrow _, by simp, ?_⟩
      have hd : World.deref
          { heap := w.heap ++ [some HeroineState.Walking], cout := w.cout ++ "Jumping\n" }
          w.heap.length = some HeroineState.Walking :=
        deref_append_self _ _ _
      simp [hd, hk]
    · rw [if_neg h]
      refine ⟨_, _, rfl, hall, hlast, ?_⟩
      have hd : World.deref { heap := w.heap, cout := w.cout ++ "Jumping\n" } heroine.state
          = w.deref heroine.state := rfl
      simp [hd]

theorem run_heap (clock : List Int) :
    ∀ (w : World) (heroine : Heroine),
      (∀ s ∈ w.heap, s.isSome = true) → heroine.state + 1 = w.heap.length →
      ∃ w1 h1, mainLoop clock w heroine = some (w1, h1)
        ∧ (∀ s ∈ w1.heap, s.isSome = true)
        ∧ h1.state + 1 = w1.heap.length
        ∧ w1.heap.length = w.heap.length + changes clock w heroine := by
  induction clock with
  | nil => intro w heroine hall hlast; exact ⟨w, heroine, rfl, hall, hlast, rfl⟩
  | cons t rest ih =>
    intro w heroine hall hlast
    obtain ⟨w1, h1, hu, hall1, hlast1, hlen1⟩ := tick_heap t w heroine hall hlast
    obtain ⟨w2, h2, hr, hall2, hlast2, hlen2⟩ := ih w1 h1 hall1 hlast1
    refine ⟨w2, h2, ?_, hall2, hlast2, ?_⟩
    · rw [mainLoop_cons_of_update t rest w w1 heroine h1 hu]; exact hr
    · rw [changes_cons_of_update t rest w w1 heroine h1 hu, hlen2, hlen1]
      omega

theorem live_of_all_some (w : World) (hall : ∀ s ∈ w.heap, s.isSome = true) :
    w.live = List.range w.heap.length := by
  unfold World.live
  apply List.filter_eq_self.2
  intro p hp
  have hlt : p < w.heap.length := List.mem_range.1 hp
  have hs := hall _ (List.getElem_mem hlt)
  obtain ⟨k, hk⟩ := Option.isSome_iff_exists.1 hs
  unfold World.deref
  rw [List.getElem?_eq_getElem hlt, hk]
  rfl

theorem consecutive_succ (n : Nat) :
    ∀ t0 : Int, consecutive t0 (n + 1) = consecutive t0 n ++ [t0 + n] := by
  induction n with
  | zero => intro t0; simp [consecutive]
  | succ m ih =>
    intro t0
    rw [consecutive, ih (t0 + 1), consecutive, List.cons_append]
    have e : t0 + 1 + (m : Int) = t0 + ((m + 1 : Nat) : Int) := by push_cast; ring
    rw [e]

theorem mem_consecutive (n : Nat) :
    ∀ (t0 t : Int), t ∈ consecutive t0 n → ∃ j : Nat, j < n ∧ t = t0 + j := by
  induction n with
  | zero => intro t0 t h; simp [consecutive] at h
  | succ m ih =>
    intro t0 t h
    rw [consecutive] at h
    rcases List.mem_cons.1 h with h | h
    · exact ⟨0, by omega, by simp [h]⟩
    · obtain ⟨j, hj, e⟩ := ih (t0 + 1) t h
      exact ⟨j + 1, by omega, by rw [e]; push_cast; ring⟩

theorem first_multiple_of_three (t0 : Int) :
    ∃ i : Nat, i < 3 ∧ (3 : Int) ∣ t0 + i ∧ ∀ j : Nat, j < i → ¬ (3 : Int) ∣ t0 + j := by
  refine ⟨((-t0) % 3).toNat, by omega, by omega, ?_⟩
  intro j hj
  omega

theorem first_multiple_of_seven (t0 : Int) :
    ∃ i : Nat, i < 7 ∧ (7 : Int) ∣ t0 + i ∧ ∀ j : Nat, j < i → ¬ (7 : Int) ∣ t0 + j := by
  refine ⟨((-t0) % 7).toNat, by omega, by omega, ?_⟩
  intro j hj
  omega

theorem current_of_run (w w1 : World) (heroine h1 : Heroine) (clock : List Int)
    (hr : mainLoop clock w heroine = some (w1, h1)) :
    current (mainLoop clock w heroine) = w1.deref h1.state := by
  rw [hr]; rfl

theorem stay_current (k : HeroineState) (clock : List Int) (w : World) (heroine : Heroine)
    (hk : w.deref heroine.state = some k)
    (h3 : k = HeroineState.Walking → ∀ t ∈ clock, ¬ (3 : Int) ∣ t)
    (h7 : k = HeroineState.Jumping → ∀ t ∈ clock, ¬ (7 : Int) ∣ t) :
    current (mainLoop clock w heroine) = some k := by
  obtain ⟨w1, hr, hh⟩ := stay_run k clock w heroine hk h3 h7
  rw [current_of_run w w1 heroine heroine clock hr, deref_heap_eq w1 w _ hh]
  exact hk

theorem leave_walking (w : World) (heroine : Heroine) (pre : List Int) (t : Int)
    (hk : w.deref heroine.state = some HeroineState.Walking)
    (hpre : ∀ s ∈ pre, ¬ (3 : Int) ∣ s) (ht : (3 : Int) ∣ t) :
    current (mainLoop (pre ++ [t]) w heroine) = some HeroineState.Jumping := by
  obtain ⟨w1, hr, hh⟩ := stay_run HeroineState.Walking pre w heroine hk (fun _ => hpre)
    (fun e => by cases e)
  have hk1 : w1.deref heroine.state = some HeroineState.Walking := by
    rw [deref_heap_eq w1 w _ hh]; exact hk
  rw [mainLoop_append, hr]
  show current (mainLoop [t] w1 heroine) = _
  have hu := update_of_walking t w1 heroine hk1
  rw [if_pos (Int.dvd_iff_tmod_eq_zero.1 ht)] at hu
  rw [mainLoop_cons_of_update t [] w1 _ heroine _ hu]
  exact deref_append_self _ _ _

theorem leave_jumping (w : World) (heroine : Heroine) (pre : List Int) (t : Int)
    (hk : w.deref heroine.state = some HeroineState.Jumping)
    (hpre : ∀ s ∈ pre, ¬ (7 : Int) ∣ s) (ht : (7 : Int) ∣ t) :
    current (mainLoop (pre ++ [t]) w heroine) = some HeroineState.Walking := by
  obtain ⟨w1, hr, hh⟩ := stay_run HeroineState.Jumping pre w heroine hk (fun e => by cases e)
    (fun _ => hpre)
  have hk1 : w1.deref heroine.state = some HeroineState.Jumping := by
    rw [deref_heap_eq w1 w _ hh]; exact hk
  rw [mainLoop_append, hr]
  show current (mainLoop [t] w1 heroine) = _
  have hu := update_of_jumping t w1 heroine hk1
  rw [if_pos (Int.dvd_iff_tmod_eq_zero.1 ht)] at hu
  rw [mainLoop_cons_of_update t [] w1 _ heroine _ hu]
  exact deref_append_self _ _ _

theorem tick_next (t : Int) (w : World) (heroine : Heroine) (k : HeroineState)
    (hk : w.deref heroine.state = some k) :
    ∃ w1 h1, heroine.update t w = some (w1, h1) ∧ w1.deref h1.state = some (k.next t) := by
  cases k with
  | Walking =>
    rw [update_of_walking t w heroine hk]
    by_cases h : Int.tmod t 3 = 0
    · rw [if_pos h]
      refine ⟨_, _, rfl, ?_⟩
      rw [HeroineState.next, if_pos h]
      exact deref_append_self _ _ _
    · rw [if_neg h]
      refine ⟨_, _, rfl, ?_⟩
      rw [HeroineState.next, if_neg h]
      exact hk
  | Jumping =>
    rw [update_of_jumping t w heroine hk]
    by_cases h : Int.tmod t 7 = 0
    · rw [if_pos h]
      refine ⟨_, _, rfl, ?_⟩
      rw [HeroineState.next, if_pos h]
      exact deref_append_self _ _ _
    · rw [if_neg h]
      refine ⟨_, _, rfl, ?_⟩
      rw [HeroineState.next, if_neg h]
      exact hk

theorem current_mainLoop (clock : List Int) :
    ∀ (w : World) (heroine : Heroine) (k : HeroineState), w.deref heroine.state = some k →
      current (mainLoop clock w heroine) = some (clock.foldl HeroineState.next k) := by
  induction clock with
  | nil => intro w heroine k hk; exact hk
  | cons t rest ih =>
    intro w heroine k hk
    obtain ⟨w1, h1, hu, hk1⟩ := tick_next t w heroine k hk
    rw [mainLoop_cons_of_update t rest w w1 heroine h1 hu, List.foldl_cons]
    exact ih w1 h1 _ hk1

theorem next_walking (t : Int) :
    HeroineState.Walking.next t
      = if (3 : Int) ∣ t then HeroineState.Jumping else HeroineState.Walking := by
  simp only [HeroineState.next, Int.dvd_iff_tmod_eq_zero]

theorem next_jumping (t : Int) :
    HeroineState.Jumping.next t
      = if (7 : Int) ∣ t then HeroineState.Walking else HeroineState.Jumping := by
  simp only [HeroineState.next, Int.dvd_iff_tmod_eq_zero]

theorem next_period (k : HeroineState) (t q : Int) : k.next (t + 21 * q) = k.next t := by
  cases k with
  | Walking =>
    rw [next_walking, next_walking]
    have e : (3 : Int) ∣ t + 21 * q ↔ (3 : Int) ∣ t := by omega
    simp only [e]
  | Jumping =>
    rw [next_jumping, next_jumping]
    have e : (7 : Int) ∣ t + 21 * q ↔ (7 : Int) ∣ t := by omega
    simp only [e]

theorem foldl_consecutive_period (q : Int) (n : Nat) :
    ∀ (t : Int) (k : HeroineState),
      (consecutive (t + 21 * q) n).foldl HeroineState.next k
        = (consecutive t n).foldl HeroineState.next k := by
  induction n with
  | zero => intro t k; rfl
  | succ m ih =>
    intro t k
    have e : t + 21 * q + 1 = t + 1 + 21 * q := by ring
    rw [consecutive, consecutive, List.foldl_cons, List.foldl_cons, next_period, e]
    exact ih (t + 1) _

theorem foldl_consecutive_mod (t0 : Int) (n : Nat) (k : HeroineState) :
    (consecutive t0 n).foldl HeroineState.next k
      = (consecutive (t0 % 21) n).foldl HeroineState.next k := by
  have e : t0 = t0 % 21 + 21 * (t0 / 21) := by omega
  rw [← foldl_consecutive_period (t0 / 21) n (t0 % 21) k, ← e]

theorem merged_after_six (r : Int) (h0 : 0 ≤ r) (h21 : r < 21) :
    (consecutive r 6).foldl HeroineState.next HeroineState.Walking
      = (consecutive r 6).foldl HeroineState.next HeroineState.Jumping := by
  interval_cases r <;> decide

theorem merged_from_six (t0 : Int) (n : Nat) (hn : 6 ≤ n) :
    (consecutive t0 n).foldl HeroineState.next HeroineState.Walking
      = (consecutive t0 n).foldl HeroineState.next HeroineState.Jumping := by
  induction n, hn using Nat.le_induction with
  | base =>
    rw [foldl_consecutive_mod t0 6 HeroineState.Walking,
      foldl_consecutive_mod t0 6 HeroineState.Jumping]
    exact merged_after_six (t0 % 21) (by omega) (by omega)
  | succ m _ ih =>
    rw [consecutive_succ, List.foldl_append, List.foldl_append, ih]

/-! ## Single ticks -/

/-- C1: for every integer clock reading `t`, a tick of an actor whose state is a live `Walking`
object is defined, appends exactly the line `walking` to the output, and leaves the actor in
`Jumping` if and only if 3 divides `t`, in `Walking` otherwise. -/
theorem walking_tick (t : Int) (w : World) (heroine : Heroine)
    (hw : w.deref heroine.state = some HeroineState.Walking) :
    ∃ w1 h1, heroine.update t w = some (w1, h1)
      ∧ w1.cout = w.cout ++ "walking\n"
      ∧ (w1.deref h1.state = some HeroineState.Jumping ↔ (3 : Int) ∣ t)
      ∧ (¬ (3 : Int) ∣ t → w1.deref h1.state = some HeroineState.Walking) := by
  rw [update_of_walking t w heroine hw, Int.dvd_iff_tmod_eq_zero]
  by_cases h : Int.tmod t 3 = 0
  · refine ⟨_, _, by rw [if_pos h], rfl, ?_, fun hn => absurd h hn⟩
    exact ⟨fun _ => h, fun _ => deref_append_self _ _ _⟩
  · refine ⟨{ heap := w.heap, cout := w.cout ++ "walking\n" }, heroine, by rw [if_neg h], rfl,
      ?_, fun _ => hw⟩
    constructor
    · intro hj
      have hw2 : World.deref { heap := w.heap, cout := w.cout ++ "walking\n" } heroine.state
          = some HeroineState.Walking := hw
      rw [hw2] at hj
      cases hj
    · intro h0
      exact absurd h0 h

/-- Scenarios of C1: from the freshly constructed actor, the tick at second 9 writes `walking`
and ends in `Jumping`; the tick at second 10 writes `walking` and stays in `Walking`. -/
theorem walking_tick_witness :
    (Heroine.construct World.start).1.deref (Heroine.construct World.start).2.state
        = some HeroineState.Walking
      ∧ (∃ w1 h1, (Heroine.construct World.start).2.update 9 (Heroine.construct World.start).1
            = some (w1, h1)
          ∧ w1.cout = "walking\n" ∧ w1.deref h1.state = some HeroineState.Jumping)
      ∧ (∃ w1 h1, (Heroine.construct World.start).2.update 10 (Heroine.construct World.start).1
            = some (w1, h1)
          ∧ w1.cout = "walking\n" ∧ w1.deref h1.state = some HeroineState.Walking) := by
  refine ⟨by decide, ?_, ?_⟩
  · obtain ⟨w1, h1, e, c, hj, _⟩ :=
      walking_tick 9 (Heroine.construct World.start).1 (Heroine.construct World.start).2
        (by decide)
    exact ⟨w1, h1, e, c, hj.2 (by decide)⟩
  · obtain ⟨w1, h1, e, c, _, hs⟩ :=
      walking_tick 10 (Heroine.construct World.start).1 (Heroine.construct World.start).2
        (by decide)
    exact ⟨w1, h1, e, c, hs (by decide)⟩

/-- C2: for every integer clock reading `t`, a tick of an actor whose state is a live `Jumping`
object is defined, appends exactly the line `Jumping` to the output, and leaves the actor in
`Walking` if and only if 7 divides `t`, in `Jumping` otherwise. -/
theorem jumping_tick (t : Int) (w : World) (heroine : Heroine)
    (hj : w.deref heroine.state = some HeroineState.Jumping) :
    ∃ w1 h1, heroine.update t w = some (w1, h1)
      ∧ w1.cout = w.cout ++ "Jumping\n"
      ∧ (w1.deref h1.state = some HeroineState.Walking ↔ (7 : Int) ∣ t)
      ∧ (¬ (7 : Int) ∣ t → w1.deref h1.state = some HeroineState.Jumping) := by
  rw [update_of_jumping t w heroine hj, Int.dvd_iff_tmod_eq_zero]
  by_cases h : Int.tmod t 7 = 0
  · refine ⟨_, _, by rw [if_pos h], rfl, ?_, fun hn => absurd h hn⟩
    exact ⟨fun _ => h, fun _ => deref_append_self _ _ _⟩
  · refine ⟨{ heap := w.heap, cout := w.cout ++ "Jumping\n" }, heroine, by rw [if_neg h], rfl,
      ?_, fun _ => hj⟩
    constructor
    · intro hw
      have hj2 : World.deref { heap := w.heap, cout := w.cout ++ "Jumping\n" } heroine.state
          = some HeroineState.Jumping := hj
      rw [hj2] at hw
      cases hw
    · intro h0
      exact absurd h0 h

/-- Scenario of C2: an actor holding a live `Jumping` object goes to `Walking` at second 14,
after writing `Jumping`. -/
theorem jumping_tick_witness :
    World.deref { heap := [some HeroineState.Jumping], cout := "" } 0 = some HeroineState.Jumping
      ∧ (∃ w1 h1, Heroine.update { state := 0 } 14
            { heap := [some HeroineState.Jumping], cout := "" } = some (w1, h1)
          ∧ w1.cout = "Jumping\n" ∧ w1.deref h1.state = some HeroineState.Walking) := by
  refine ⟨by decide, ?_⟩
  obtain ⟨w1, h1, e, c, hw, _⟩ :=
    jumping_tick 14 { heap := [some HeroineState.Jumping], cout := "" } { state := 0 }
      (by decide)
  exact ⟨w1, h1, e, c, hw.2 (by decide)⟩

/-! ## Runs of `main` -/

/-- C3: in every run, after construction and after each tick (after the first `n` readings of
any clock sequence) the run is defined and the actor's state pointer designates a live object
that is a `Walking` or a `Jumping`; and one tick from any such state, at any clock reading, is
defined and ends in such a state. -/
theorem state_always_defined :
    (∀ (clock : List Int) (n : Nat), ∃ w heroine,
        main (clock.take n) = some (w, heroine)
        ∧ (w.deref heroine.state = some HeroineState.Walking
            ∨ w.deref heroine.state = some HeroineState.Jumping)
        ∧ main clock = mainLoop (clock.drop n) w heroine)
    ∧ (∀ (w : World) (heroine : Heroine) (t : Int),
        (w.deref heroine.state = some HeroineState.Walking
            ∨ w.deref heroine.state = some HeroineState.Jumping) →
        ∃ w1 h1, heroine.update t w = some (w1, h1)
          ∧ (w1.deref h1.state = some HeroineState.Walking
            ∨ w1.deref h1.state = some HeroineState.Jumping)) := by
  have hkind : ∀ (w : World) (p : Nat) (k : HeroineState), w.deref p = some k →
      (w.deref p = some HeroineState.Walking ∨ w.deref p = some HeroineState.Jumping) := by
    intro w p k hk
    cases k
    · exact Or.inl hk
    · exact Or.inr hk
  constructor
  · intro clock n
    obtain ⟨w1, h1, k1, _, hr, hk1, _⟩ :=
      run_spec (clock.take n) _ _ _ (deref_construct World.start)
    refine ⟨w1, h1, hr, hkind _ _ _ hk1, ?_⟩
    have hm : main clock = mainLoop (clock.take n ++ clock.drop n)
        (Heroine.construct World.start).1 (Heroine.construct World.start).2 := by
      rw [List.take_append_drop]; rfl
    rw [hm, mainLoop_append, hr]
    rfl
  · intro w heroine t hk
    rcases hk with hk | hk
    · obtain ⟨w1, h1, k1, hu, hk1, _⟩ := tick_defined t w heroine _ hk
      exact ⟨w1, h1, hu, hkind _ _ _ hk1⟩
    · obtain ⟨w1, h1, k1, hu, hk1, _⟩ := tick_defined t w heroine _ hk
      exact ⟨w1, h1, hu, hkind _ _ _ hk1⟩

/-- Instance of C3: the freshly constructed actor holds a live state, and its tick at second 3
is defined and ends in a live state. -/
theorem state_always_defined_witness :
    ((Heroine.construct World.start).1.deref (Heroine.construct World.start).2.state
          = some HeroineState.Walking
        ∨ (Heroine.construct World.start).1.deref (Heroine.construct World.start).2.state
          = some HeroineState.Jumping)
      ∧ ∃ w1 h1, (Heroine.construct World.start).2.update 3 (Heroine.construct World.start).1
            = some (w1, h1)
          ∧ (w1.deref h1.state = some HeroineState.Walking
            ∨ w1.deref h1.state = some HeroineState.Jumping) :=
  ⟨Or.inl (by decide),
    state_always_defined.2 (Heroine.construct World.start).1 (Heroine.construct World.start).2 3
      (Or.inl (by decide))⟩

/-- C4: the constructor leaves the actor holding a live `Walking` object, in whatever process
state it runs; so `main` starts in `Walking`, and whatever the clock readings, the output of a
run of at least one tick begins with the line `walking`. -/
theorem starts_walking :
    (∀ w : World,
        (Heroine.construct w).1.deref (Heroine.construct w).2.state = some HeroineState.Walking)
    ∧ current (main []) = some HeroineState.Walking
    ∧ ∀ (t : Int) (rest : List Int), ∃ w heroine out,
        main (t :: rest) = some (w, heroine) ∧ w.cout = "walking\n" ++ out := by
  refine ⟨deref_construct, by decide, ?_⟩
  intro t rest
  obtain ⟨w1, h1, k1, hu, hk1, hc1⟩ :=
    tick_defined t _ _ _ (deref_construct World.start)
  obtain ⟨w2, h2, k2, lines, hr, _, hc2, _⟩ := run_spec rest w1 h1 k1 hk1
  refine ⟨w2, h2, unlines lines, ?_, ?_⟩
  · show mainLoop (t :: rest) (Heroine.construct World.start).1
      (Heroine.construct World.start).2 = _
    rw [mainLoop_cons_of_update t rest _ w1 _ h1 hu]; exact hr
  · rw [hc2, hc1]
    rfl

/-- C5: a run of `n` ticks, whatever the `n` clock readings, is defined and its whole output is
`n` lines, each terminated by a newline and each `walking` or `Jumping`; line number `k`
(counting from 0) is the line of the state the actor held after the first `k` ticks, that is
before tick number `k`. -/
theorem one_line_per_tick (clock : List Int) :
    ∃ w heroine lines, main clock = some (w, heroine)
      ∧ w.cout = unlines lines
      ∧ lines.length = clock.length
      ∧ (∀ l ∈ lines, l = "walking" ∨ l = "Jumping")
      ∧ ∀ k, lines[k]? =
          if k < clock.length then (current (main (clock.take k))).map HeroineState.line
          else none := by
  obtain ⟨w1, h1, _, lines, hr, _, hc, hlen, hall, hidx⟩ :=
    run_spec clock _ _ _ (deref_construct World.start)
  refine ⟨w1, h1, lines, hr, ?_, hlen, hall, hidx⟩
  rw [hc]
  exact String.empty_append _

/-- Instance of C5: the run with clock readings 9 and 10 writes the two lines `walking` and
`Jumping`, the states held before the first and before the second tick. -/
theorem one_line_per_tick_witness :
    ∃ w heroine lines, main [9, 10] = some (w, heroine)
      ∧ lines = ["walking", "Jumping"] ∧ w.cout = "walking\nJumping\n" := by
  obtain ⟨w, heroine, lines, hm, hc, hlen, hall, hidx⟩ := one_line_per_tick [9, 10]
  have e0 : (if 0 < [(9 : Int), 10].length then
      (current (main (List.take 0 [9, 10]))).map HeroineState.line else none)
      = some "walking" := by decide
  have e1 : (if 1 < [(9 : Int), 10].length then
      (current (main (List.take 1 [9, 10]))).map HeroineState.line else none)
      = some "Jumping" := by decide
  have h0 := hidx 0
  have h1 := hidx 1
  rw [e0] at h0
  rw [e1] at h1
  match lines, hlen, h0, h1, hc, hall with
  | [a, b], _, h0, h1, hc, hall =>
    have ha : a = "walking" := by simpa using h0
    have hb : b = "Jumping" := by simpa using h1
    have hmem : a = "walking" ∨ a = "Jumping" := hall a (List.mem_cons_self a [b])
    subst ha hb
    exact ⟨w, heroine, _, hm, rfl, by rw [hc]; decide⟩

/-! ## Ticks that do not change the state, and delegation -/

/-- C6: if the actor holds a live object of type `k` and the guard of `k` is false at every
reading of a clock sequence (no reading divisible by 3 for `Walking`, by 7 for `Jumping`), then
running all these ticks is defined, leaves the actor with the same pointer, allocates nothing
(the free store is unchanged), so the object designated is the same one, of the same type, and
the next tick, at any reading, writes the same line as a tick before the run would have. -/
theorem guard_false_keeps_object (k : HeroineState) (clock : List Int) (w : World)
    (heroine : Heroine) (hk : w.deref heroine.state = some k)
    (h3 : k = HeroineState.Walking → ∀ t ∈ clock, ¬ (3 : Int) ∣ t)
    (h7 : k = HeroineState.Jumping → ∀ t ∈ clock, ¬ (7 : Int) ∣ t) :
    ∃ w1 h1, mainLoop clock w heroine = some (w1, h1)
      ∧ h1.state = heroine.state
      ∧ w1.heap = w.heap
      ∧ w1.deref h1.state = some k
      ∧ ∀ t : Int, ∃ wa ha wb hb,
          heroine.update t w = some (wa, ha) ∧ wa.cout = w.cout ++ (k.line ++ "\n")
          ∧ h1.update t w1 = some (wb, hb) ∧ wb.cout = w1.cout ++ (k.line ++ "\n") := by
  obtain ⟨w1, hr, hh⟩ := stay_run k clock w heroine hk h3 h7
  have hk1 : w1.deref heroine.state = some k := by
    rw [deref_heap_eq w1 w heroine.state hh]; exact hk
  refine ⟨w1, heroine, hr, rfl, hh, hk1, ?_⟩
  intro t
  obtain ⟨wa, ha, _, hua, _, hca⟩ := tick_defined t w heroine k hk
  obtain ⟨wb, hb, _, hub, _, hcb⟩ := tick_defined t w1 heroine k hk1
  exact ⟨wa, ha, wb, hb, hua, hca, hub, hcb⟩

/-- Instance of C6: the freshly constructed actor, ticked at seconds 10 and 11, still holds the
object at address 0, the only object allocated, and its next tick writes `walking`. -/
theorem guard_false_keeps_object_witness :
    (Heroine.construct World.start).1.deref (Heroine.construct World.start).2.state
        = some HeroineState.Walking
      ∧ (∀ t ∈ [(10 : Int), 11], ¬ (3 : Int) ∣ t)
      ∧ ∃ w1 h1, main [10, 11] = some (w1, h1) ∧ h1.state = 0
          ∧ w1.heap = [some HeroineState.Walking]
          ∧ ∃ wb hb, h1.update 12 w1 = some (wb, hb) ∧ wb.cout = w1.cout ++ "walking\n" := by
  have h3 : ∀ t ∈ [(10 : Int), 11], ¬ (3 : Int) ∣ t := by decide
  refine ⟨by decide, h3, ?_⟩
  obtain ⟨w1, h1, hr, hs, hh, _, hnext⟩ :=
    guard_false_keeps_object HeroineState.Walking [10, 11] (Heroine.construct World.start).1
      (Heroine.construct World.start).2 (by decide) (fun _ => h3)
      (fun e => by cases e)
  obtain ⟨_, _, wb, hb, _, _, hub, hcb⟩ := hnext 12
  exact ⟨w1, h1, hr, hs, hh, wb, hb, hub, hcb⟩

/-- C7: a tick of the actor is the virtual call of `update_state` on its current state and
nothing else: the process state after the tick (output included) is the one the call left, the
actor's pointer is the pointer the call returned, and the tick is undefined exactly when the
call is; the call's result is the same whichever actor is passed to it, for the dispatching call
and for each of the two overriding methods. -/
theorem update_is_delegation (heroine : Heroine) (t : Int) (w : World) :
    heroine.update t w
        = (HeroineState.update_state heroine.state heroine t w).map
            (fun r => (r.1, { state := r.2 }))
      ∧ (∀ other : Heroine, HeroineState.update_state heroine.state other t w
          = HeroineState.update_state heroine.state heroine t w)
      ∧ (∀ (p : Nat) (other : Heroine),
          Walking.update_state p other t w = Walking.update_state p heroine t w)
      ∧ (∀ (p : Nat) (other : Heroine),
          Jumping.update_state p other t w = Jumping.update_state p heroine t w) := by
  refine ⟨?_, fun _ => rfl, fun _ _ => rfl, fun _ _ => rfl⟩
  unfold Heroine.update
  cases HeroineState.update_state heroine.state heroine t w <;> rfl

/-- C8: no integer `t` has both `t` and `t + 1` divisible by 3, nor both divisible by 7; so,
called at two readings one second apart, `Walking::update_state` does not allocate a new state
both times, and neither does `Jumping::update_state`. -/
theorem guard_not_twice (t : Int) (p : Nat) (heroine : Heroine) (w : World) :
    ¬ ((3 : Int) ∣ t ∧ (3 : Int) ∣ t + 1)
      ∧ ¬ ((7 : Int) ∣ t ∧ (7 : Int) ∣ t + 1)
      ∧ ¬ (Int.tmod t 3 = 0 ∧ Int.tmod (t + 1) 3 = 0)
      ∧ ¬ (Int.tmod t 7 = 0 ∧ Int.tmod (t + 1) 7 = 0)
      ∧ ((Walking.update_state p heroine t w).1.heap = w.heap
          ∨ (Walking.update_state p heroine (t + 1) w).1.heap = w.heap)
      ∧ ((Jumping.update_state p heroine t w).1.heap = w.heap
          ∨ (Jumping.update_state p heroine (t + 1) w).1.heap = w.heap) := by
  have a3 : ¬ ((3 : Int) ∣ t ∧ (3 : Int) ∣ t + 1) := by omega
  have a7 : ¬ ((7 : Int) ∣ t ∧ (7 : Int) ∣ t + 1) := by omega
  have b3 : ¬ (Int.tmod t 3 = 0 ∧ Int.tmod (t + 1) 3 = 0) := by
    rw [← Int.dvd_iff_tmod_eq_zero, ← Int.dvd_iff_tmod_eq_zero]; exact a3
  have b7 : ¬ (Int.tmod t 7 = 0 ∧ Int.tmod (t + 1) 7 = 0) := by
    rw [← Int.dvd_iff_tmod_eq_zero, ← Int.dvd_iff_tmod_eq_zero]; exact a7
  refine ⟨a3, a7, b3, b7, ?_, ?_⟩
  · by_cases h : Int.tmod t 3 = 0
    · right
      have h1 : ¬ Int.tmod (t + 1) 3 = 0 := fun h1 => b3 ⟨h, h1⟩
      simp [Walking.update_state, World.write, h1]
    · left
      simp [Walking.update_state, World.write, h]
  · by_cases h : Int.tmod t 7 = 0
    · right
      have h1 : ¬ Int.tmod (t + 1) 7 = 0 := fun h1 => b7 ⟨h, h1⟩
      simp [Jumping.update_state, World.write, h1]
    · left
      simp [Jumping.update_state, World.write, h]

/-! ## Ownership of the state objects -/

/-- Counterexample to C9: after the single tick at second 9 the actor holds the object at
address 1 while the object at address 0, its former state, is still live: two live objects. -/
theorem single_live_object_fails :
    ∃ w heroine, main [9] = some (w, heroine) ∧ heroine.state = 1 ∧ w.live = [0, 1]
      ∧ w.live ≠ [heroine.state] :=
  ⟨{ heap := [some HeroineState.Walking, some HeroineState.Jumping], cout := "walking\n" },
    { state := 1 }, by decide, rfl, by decide, by decide⟩

/-- C9, amended: after construction and after every tick of any run, the actor's state pointer
designates a live object, the one allocated last; no object allocated so far has been released,
so the number of live state objects is one plus the number of ticks that changed the state. -/
theorem states_accumulate (clock : List Int) :
    ∃ w heroine, main clock = some (w, heroine)
      ∧ heroine.state ∈ w.live
      ∧ heroine.state + 1 = w.heap.length
      ∧ w.live = List.range w.heap.length
      ∧ w.live.length
          = 1 + changes clock (Heroine.construct World.start).1
              (Heroine.construct World.start).2 := by
  obtain ⟨w1, h1, hr, hall, hlast, hlen⟩ :=
    run_heap clock (Heroine.construct World.start).1 (Heroine.construct World.start).2
      (by decide) (by decide)
  have hlive := live_of_all_some w1 hall
  refine ⟨w1, h1, hr, ?_, hlast, hlive, ?_⟩
  · rw [hlive]; exact List.mem_range.2 (by omega)
  · rw [hlive, List.length_range, hlen]
    have e : (Heroine.construct World.start).1.heap.length = 1 := by decide
    rw [e]

/-! ## Ticks one second apart -/

/-- C10: with ticks at the consecutive seconds `t0`, `t0 + 1`, ..., for every integer `t0`, an
actor holding a live `Walking` is in `Jumping` after some number of ticks not larger than 3, and
an actor holding a live `Jumping` is in `Walking` after some number of ticks not larger than 7;
from second 1 the actor is still in `Walking` after fewer than 3 ticks, and still in `Jumping`
after fewer than 7 ticks. -/
theorem dwell_bounded (t0 : Int) (w : World) (heroine : Heroine) :
    (w.deref heroine.state = some HeroineState.Walking →
        ∃ n, n ≤ 3 ∧ current (mainLoop (consecutive t0 n) w heroine) = some HeroineState.Jumping)
      ∧ (w.deref heroine.state = some HeroineState.Jumping →
        ∃ n, n ≤ 7 ∧ current (mainLoop (consecutive t0 n) w heroine) = some HeroineState.Walking)
      ∧ (w.deref heroine.state = some HeroineState.Walking →
        ∀ n, n < 3 → current (mainLoop (consecutive 1 n) w heroine) = some HeroineState.Walking)
      ∧ (w.deref heroine.state = some HeroineState.Jumping →
        ∀ n, n < 7 →
          current (mainLoop (consecutive 1 n) w heroine) = some HeroineState.Jumping) := by
  refine ⟨?_, ?_, ?_, ?_⟩
  · intro hk
    obtain ⟨i, hi, hdvd, hbefore⟩ := first_multiple_of_three t0
    refine ⟨i + 1, by omega, ?_⟩
    rw [consecutive_succ]
    apply leave_walking w heroine _ _ hk _ hdvd
    intro s hs
    obtain ⟨j, hj, e⟩ := mem_consecutive i t0 s hs
    rw [e]
    exact hbefore j hj
  · intro hk
    obtain ⟨i, hi, hdvd, hbefore⟩ := first_multiple_of_seven t0
    refine ⟨i + 1, by omega, ?_⟩
    rw [consecutive_succ]
    apply leave_jumping w heroine _ _ hk _ hdvd
    intro s hs
    obtain ⟨j, hj, e⟩ := mem_consecutive i t0 s hs
    rw [e]
    exact hbefore j hj
  · intro hk n hn
    apply stay_current _ _ w heroine hk
    · intro _ s hs
      obtain ⟨j, hj, e⟩ := mem_consecutive n 1 s hs
      omega
    · intro e; cases e
  · intro hk n hn
    apply stay_current _ _ w heroine hk
    · intro e; cases e
    · intro _ s hs
      obtain ⟨j, hj, e⟩ := mem_consecutive n 1 s hs
      omega

/-- Instance of C10 at second 1: the freshly constructed actor reaches `Jumping` within 3 ticks
and is still in `Walking` after 2; an actor holding a `Jumping` reaches `Walking` within 7 ticks
and is still in `Jumping` after 6. -/
theorem dwell_bounded_witness :
    ((Heroine.construct World.start).1.deref (Heroine.construct World.start).2.state
        = some HeroineState.Walking
      ∧ (∃ n, n ≤ 3 ∧ current (main (consecutive 1 n)) = some HeroineState.Jumping)
      ∧ current (main (consecutive 1 2)) = some HeroineState.Walking)
    ∧ (World.deref { heap := [some HeroineState.Jumping], cout := "" } 0
        = some HeroineState.Jumping
      ∧ (∃ n, n ≤ 7 ∧ current (mainLoop (consecutive 1 n)
            { heap := [some HeroineState.Jumping], cout := "" } { state := 0 })
          = some HeroineState.Walking)
      ∧ current (mainLoop (consecutive 1 6)
            { heap := [some HeroineState.Jumping], cout := "" } { state := 0 })
          = some HeroineState.Jumping) := by
  have a := dwell_bounded 1 (Heroine.construct World.start).1 (Heroine.construct World.start).2
  have b := dwell_bounded 1 { heap := [some HeroineState.Jumping], cout := "" } { state := 0 }
  exact ⟨⟨by decide, a.1 (by decide), a.2.2.1 (by decide) 2 (by decide)⟩,
    ⟨by decide, b.2.1 (by decide), b.2.2.2 (by decide) 6 (by decide)⟩⟩

/-- C11: the actor can change state on two ticks one second apart. From a live `Walking`, the
ticks at seconds `t` and `t + 1` end in `Jumping` and then in `Walking` if and only if `t` is
congruent to 6 modulo 21; from a live `Jumping`, they end in `Walking` and then in `Jumping` if
and only if `t` is congruent to 14 modulo 21. -/
theorem double_change (t : Int) (w : World) (heroine : Heroine) :
    (w.deref heroine.state = some HeroineState.Walking →
        ((current (mainLoop [t] w heroine) = some HeroineState.Jumping
            ∧ current (mainLoop [t, t + 1] w heroine) = some HeroineState.Walking)
          ↔ (21 : Int) ∣ t - 6))
      ∧ (w.deref heroine.state = some HeroineState.Jumping →
        ((current (mainLoop [t] w heroine) = some HeroineState.Walking
            ∧ current (mainLoop [t, t + 1] w heroine) = some HeroineState.Jumping)
          ↔ (21 : Int) ∣ t - 14)) := by
  constructor
  · intro hk
    rw [current_mainLoop [t] w heroine _ hk, current_mainLoop [t, t + 1] w heroine _ hk]
    simp only [List.foldl_cons, List.foldl_nil, next_walking]
    by_cases h3 : (3 : Int) ∣ t
    · by_cases h7 : (7 : Int) ∣ t + 1
      · have hr : (21 : Int) ∣ t - 6 := by omega
        simp [h3, h7, hr, next_jumping]
      · have hr : ¬ (21 : Int) ∣ t - 6 := by omega
        simp [h3, h7, hr, next_jumping]
    · have hr : ¬ (21 : Int) ∣ t - 6 := by omega
      simp [h3, hr]
  · intro hk
    rw [current_mainLoop [t] w heroine _ hk, current_mainLoop [t, t + 1] w heroine _ hk]
    simp only [List.foldl_cons, List.foldl_nil, next_jumping]
    by_cases h7 : (7 : Int) ∣ t
    · by_cases h3 : (3 : Int) ∣ t + 1
      · have hr : (21 : Int) ∣ t - 14 := by omega
        simp [h3, h7, hr, next_walking]
      · have hr : ¬ (21 : Int) ∣ t - 14 := by omega
        simp [h3, h7, hr, next_walking]
    · have hr : ¬ (21 : Int) ∣ t - 14 := by omega
      simp [h7, hr]

/-- Instances of C11: the freshly constructed actor, ticked at seconds 6 and 7, goes to
`Jumping` and back to `Walking`; an actor holding a `Jumping`, ticked at seconds 14 and 15, goes
to `Walking` and back to `Jumping`. -/
theorem double_change_witness :
    ((Heroine.construct World.start).1.deref (Heroine.construct World.start).2.state
        = some HeroineState.Walking
      ∧ current (main [6]) = some HeroineState.Jumping
      ∧ current (main [6, 6 + 1]) = some HeroineState.Walking)
    ∧ (World.deref { heap := [some HeroineState.Jumping], cout := "" } 0
        = some HeroineState.Jumping
      ∧ current (mainLoop [14] { heap := [some HeroineState.Jumping], cout := "" } { state := 0 })
        = some HeroineState.Walking
      ∧ current (mainLoop [14, 14 + 1]
          { heap := [some HeroineState.Jumping], cout := "" } { state := 0 })
        = some HeroineState.Jumping) := by
  have a := ((double_change 6 (Heroine.construct World.start).1
    (Heroine.construct World.start).2).1 (by decide)).2 (by decide)
  have b := ((double_change 14 { heap := [some HeroineState.Jumping], cout := "" }
    { state := 0 }).2 (by decide)).2 (by decide)
  exact ⟨⟨by decide, a.1, a.2⟩, ⟨by decide, b.1, b.2⟩⟩

/-- C12: with ticks one second apart, the state ends up depending on the clock alone. For
every integer start second `t0`, the run of 6 ticks (at `t0`, ..., `t0 + 5`) from a live
`Walking` and the run of the same ticks from a live `Jumping` are both defined and end in the
same state, and so do the runs of any larger number of ticks; 6 is the least such number: from
second 19, after 5 ticks the first run is in `Jumping` and the second in `Walking`. -/
theorem start_state_forgotten (t0 : Int) (w1 w2 : World) (h1 h2 : Heroine)
    (hw : w1.deref h1.state = some HeroineState.Walking)
    (hj : w2.deref h2.state = some HeroineState.Jumping) :
    (∃ k, current (mainLoop (consecutive t0 6) w1 h1) = some k
        ∧ current (mainLoop (consecutive t0 6) w2 h2) = some k)
      ∧ (∀ n, 6 ≤ n → ∃ k, current (mainLoop (consecutive t0 n) w1 h1) = some k
        ∧ current (mainLoop (consecutive t0 n) w2 h2) = some k)
      ∧ current (mainLoop (consecutive 19 5) w1 h1) = some HeroineState.Jumping
      ∧ current (mainLoop (consecutive 19 5) w2 h2) = some HeroineState.Walking := by
  have hall : ∀ n, 6 ≤ n → ∃ k, current (mainLoop (consecutive t0 n) w1 h1) = some k
      ∧ current (mainLoop (consecutive t0 n) w2 h2) = some k := by
    intro n hn
    refine ⟨_, current_mainLoop _ w1 h1 _ hw, ?_⟩
    rw [current_mainLoop _ w2 h2 _ hj, merged_from_six t0 n hn]
  refine ⟨hall 6 (le_refl 6), hall, ?_, ?_⟩
  · rw [current_mainLoop _ w1 h1 _ hw]; decide
  · rw [current_mainLoop _ w2 h2 _ hj]; decide

/-- Instance of C12 at second 19: the freshly constructed actor and an actor holding a
`Jumping` are in the same state after the 6 ticks at seconds 19 to 24, namely `Jumping`, and in
different states after the first 5 of them. -/
theorem start_state_forgotten_witness :
    (Heroine.construct World.start).1.deref (Heroine.construct World.start).2.state
        = some HeroineState.Walking
      ∧ World.deref { heap := [some HeroineState.Jumping], cout := "" } 0
        = some HeroineState.Jumping
      ∧ (∃ k, current (main (consecutive 19 6)) = some k
        ∧ current (mainLoop (consecutive 19 6)
            { heap := [some HeroineState.Jumping], cout := "" } { state := 0 }) = some k)
      ∧ current (main (consecutive 19 6)) = some HeroineState.Jumping
      ∧ current (main (consecutive 19 5)) = some HeroineState.Jumping
      ∧ current (mainLoop (consecutive 19 5)
            { heap := [some HeroineState.Jumping], cout := "" } { state := 0 })
          = some HeroineState.Walking := by
  have a := start_state_forgotten 19 (Heroine.construct World.start).1
    { heap := [some HeroineState.Jumping], cout := "" } (Heroine.construct World.start).2
    { state := 0 } (by decide) (by decide)
  exact ⟨by decide, by decide, a.1, by decide, a.2.2.1, a.2.2.2⟩

end BlogMarkdown
